import Mathlib

/-!
# Verification of the `nhalm/shortuuid` base-62 codec

Shallow embedding of the Go sources of `nhalm/shortuuid`.

Modelling conventions:
* Go byte strings (the inputs/outputs of the generic string codec, which Go
  treats via `[]byte(s)` / `string(bytes)`) are modelled as `List Nat` with
  every element `< 256`.
* Short IDs and hex/UUID text (always ASCII in this code; Go iterates them
  rune by rune with `range`) are modelled as `List Char`.
* `math/big` non-negative integers are modelled as `Nat`.
* A `uuid.UUID` (`[16]byte` in Go) is modelled as a structure of 16 byte
  fields.
* Fallible Go functions returning `(T, error)` are modelled as `Except`.

The repository snapshot contains two variants of the UUID front end: the one
in `shortuuid.go` (`ShortenUUID u = Shorten(u.String())`, the raw-byte
convention) and the one embedded later in the snapshot (hyphen-stripping /
hex-integer convention, functions `ShortenUUID`, `ExpandUUID`, `encodeHex`,
`decodeHex`).  The specification (§4.3, §9) describes the hex-integer
convention, so that variant is the one embedded here under those names.  The
conversion engine (`intToBase`, `baseToInt`) and the string codec
(`encode`/`decode`, a.k.a. `encodeString`/`decodeString`) are identical in
both variants apart from the text of one error message.
-/

namespace ShortUUID

/-- `EncodeError` carries the offending input and a reason
(Go struct `EncodeError`; the byte string that failed to encode is kept as
a byte list; the second source variant names the first field `Input`). -/
structure EncodeError where
  UUID : List Nat
  Reason : String
  deriving DecidableEq, Repr

/-- `DecodeError` carries the offending short ID and a reason
(Go struct `DecodeError`). -/
structure DecodeError where
  ShortID : List Char
  Reason : String
  deriving DecidableEq, Repr

/-- The fixed base-62 alphabet `defaultBase62`. -/
def defaultBase62 : List Char :=
  "0123456789ABCDEFGHIJKLMNOPQRSTUVWXYZabcdefghijklmnopqrstuvwxyz".toList

/-- Loop body of Go `intToBase`: `for n.Cmp(zero) > 0 { n.DivMod(n, base, r);
result = append([]rune{defaultBase62[r]}, result...) }`.  The Go code indexes
`defaultBase62[r.Int64()]` directly; `r % 62 < 62` is always in range, so the
`getD` default is never used. -/
def intToBaseLoop (n : Nat) (result : List Char) : List Char :=
  if h : n = 0 then result
  else intToBaseLoop (n / 62) (defaultBase62.getD (n % 62) '0' :: result)
  termination_by n
  decreasing_by exact Nat.div_lt_self (Nat.pos_of_ne_zero h) (by norm_num)

/-- Go `intToBase`: the zero big integer maps to the single symbol
`defaultBase62[0]`; otherwise the division loop runs. -/
def intToBase (num : Nat) : List Char :=
  if num = 0 then [defaultBase62.getD 0 '0']
  else intToBaseLoop num []

/-- The inner alphabet scan of Go `baseToInt`:
`for i, alphabetChar := range defaultBase62 { if char == alphabetChar
{ index = i; break } }`, returning `none` when the symbol is absent. -/
def alphaIdxGo (c : Char) : List Char → Nat → Option Nat
  | [], _ => none
  | a :: rest, i => if a = c then some i else alphaIdxGo c rest (i + 1)

/-- Index of a symbol in `defaultBase62` (Go's linear scan, `-1` ↦ `none`). -/
def alphaIdx (c : Char) : Option Nat :=
  alphaIdxGo c defaultBase62 0

/-- The reason string produced by Go `baseToInt` for a symbol outside the
alphabet (first source variant's wording). -/
def invalidCharReason (c : Char) : String :=
  "contains invalid character \x27" ++ String.mk [c] ++ "\x27 not found in alphabet"

/-- Main loop of Go `baseToInt`: `result.Mul(result, base);
result.Add(result, big.NewInt(int64(index)))` over the runes of `encoded`,
erroring out at the first symbol not in the alphabet.  The first argument is
the whole input, used only for the error value. -/
def baseToIntLoop (encoded : List Char) : List Char → Nat → Except DecodeError Nat
  | [], acc => .ok acc
  | c :: rest, acc =>
    match alphaIdx c with
    | none => .error ⟨encoded, invalidCharReason c⟩
    | some i => baseToIntLoop encoded rest (acc * 62 + i)

/-- Go `baseToInt`: accumulator starts at zero and runs over all runes. -/
def baseToInt (encoded : List Char) : Except DecodeError Nat :=
  baseToIntLoop encoded encoded 0

/-- Go `num.SetBytes(bytes)`: interpret a byte list as a big-endian integer. -/
def bytesToNat (bs : List Nat) : Nat :=
  bs.foldl (fun acc b => acc * 256 + b) 0

/-- Loop of Go `num.Bytes()` (minimal big-endian byte representation,
empty for zero), written as the evident repeated div/mod. -/
def natToBytesLoop (n : Nat) (acc : List Nat) : List Nat :=
  if h : n = 0 then acc
  else natToBytesLoop (n / 256) (n % 256 :: acc)
  termination_by n
  decreasing_by exact Nat.div_lt_self (Nat.pos_of_ne_zero h) (by norm_num)

/-- Go `num.Bytes()`. -/
def natToBytes (n : Nat) : List Nat :=
  natToBytesLoop n []

/-- Go `encode` (= `encodeString` in the second variant): reject the empty
string, otherwise `num.SetBytes([]byte(input))` and `intToBase(num)`. -/
def encode (input : List Nat) : Except EncodeError (List Char) :=
  if input = [] then
    .error ⟨input, "input string cannot be empty"⟩
  else
    .ok (intToBase (bytesToNat input))

/-- Go `decode` (= `decodeString`): `baseToInt`, then `num.Bytes()` back to a
string. -/
def decode (shortID : List Char) : Except DecodeError (List Nat) :=
  match baseToInt shortID with
  | .error e => .error e
  | .ok num => .ok (natToBytes num)

/-- Go `Shorten`. -/
def Shorten (input : List Nat) : Except EncodeError (List Char) :=
  encode input

/-- Go `Expand`. -/
def Expand (shortID : List Char) : Except DecodeError (List Nat) :=
  decode shortID

/-! ## The UUID front end (hex-integer convention) -/

/-- The lowercase hex digit used by Go's `big.Int.Text(16)` and by
`uuid.UUID.String()`.  Indices are always `< 16` at every use site, so the
`getD` default is never used. -/
def hexDigit (d : Nat) : Char :=
  "0123456789abcdef".toList.getD d '0'

/-- Loop of Go `num.Text(16)` (minimal lowercase hex digits). -/
def natToHexLoop (n : Nat) (acc : List Char) : List Char :=
  if h : n = 0 then acc
  else natToHexLoop (n / 16) (hexDigit (n % 16) :: acc)
  termination_by n
  decreasing_by exact Nat.div_lt_self (Nat.pos_of_ne_zero h) (by norm_num)

/-- Go `num.Text(16)`: `"0"` for zero, minimal digits otherwise. -/
def natToHex (n : Nat) : List Char :=
  if n = 0 then ['0'] else natToHexLoop n []

/-- Go `fmt.Sprintf("%032s", s)`: left-pad with `'0'` up to width `w`
(the `0` flag makes `fmt` pad with zeros; a string already at least as long
as the width is returned unchanged). -/
def padZero (w : Nat) (s : List Char) : List Char :=
  List.replicate (w - s.length) '0' ++ s

/-- Hex value of one character, as accepted by Go `big.Int.SetString(_, 16)`
and by `google/uuid`'s `xtob`. -/
def hexCharVal (c : Char) : Option Nat :=
  if '0' ≤ c ∧ c ≤ '9' then some (c.toNat - '0'.toNat)
  else if 'a' ≤ c ∧ c ≤ 'f' then some (c.toNat - 'a'.toNat + 10)
  else if 'A' ≤ c ∧ c ≤ 'F' then some (c.toNat - 'A'.toNat + 10)
  else none

/-- Go `num.SetString(hexStr, 16)`.  Its only caller, `encodeHex`, always
passes the 32 lowercase hex characters of a formatted UUID, so `SetString`
cannot fail there and the `getD 0` branch is unreachable. -/
def hexToNat (s : List Char) : Nat :=
  s.foldl (fun acc c => acc * 16 + (hexCharVal c).getD 0) 0

/-- Go `encodeHex`: hex string to big integer to base 62; always returns a
nil error. -/
def encodeHex (hexStr : List Char) : Except EncodeError (List Char) :=
  .ok (intToBase (hexToNat hexStr))

/-- Go `decodeHex`: `baseToInt`, then
`fmt.Sprintf("%032s", num.Text(16))`. -/
def decodeHex (shortID : List Char) : Except DecodeError (List Char) :=
  match baseToInt shortID with
  | .error e => .error e
  | .ok num => .ok (padZero 32 (natToHex num))

/-- A `uuid.UUID` value: Go's `[16]byte`. -/
structure UUIDv where
  b0 : Nat
  b1 : Nat
  b2 : Nat
  b3 : Nat
  b4 : Nat
  b5 : Nat
  b6 : Nat
  b7 : Nat
  b8 : Nat
  b9 : Nat
  b10 : Nat
  b11 : Nat
  b12 : Nat
  b13 : Nat
  b14 : Nat
  b15 : Nat
  deriving DecidableEq, Repr

/-- The 16 bytes of a UUID in order. -/
def uuidBytes (u : UUIDv) : List Nat :=
  [u.b0, u.b1, u.b2, u.b3, u.b4, u.b5, u.b6, u.b7,
   u.b8, u.b9, u.b10, u.b11, u.b12, u.b13, u.b14, u.b15]

/-- Every field of the structure is a byte (automatic for Go's `[16]byte`). -/
def uuidValid (u : UUIDv) : Prop :=
  ∀ b ∈ uuidBytes u, b < 256

instance (u : UUIDv) : Decidable (uuidValid u) := by
  unfold uuidValid; infer_instance

/-- The 128-bit integer value of a UUID (big-endian bytes), i.e. the number
`uuid.String()` spells in hex once the hyphens are removed. -/
def uuidNat (u : UUIDv) : Nat :=
  bytesToNat (uuidBytes u)

/-- Go's hex rendering of one byte (two lowercase hex digits). -/
def byteToHex (b : Nat) : List Char :=
  [hexDigit (b / 16), hexDigit (b % 16)]

/-- `uuid.UUID.String()` from `google/uuid`: lowercase hex of the 16 bytes,
hyphenated 8-4-4-4-12. -/
def uuidString (u : UUIDv) : List Char :=
  byteToHex u.b0 ++ byteToHex u.b1 ++ byteToHex u.b2 ++ byteToHex u.b3 ++ '-' ::
  (byteToHex u.b4 ++ byteToHex u.b5 ++ '-' ::
  (byteToHex u.b6 ++ byteToHex u.b7 ++ '-' ::
  (byteToHex u.b8 ++ byteToHex u.b9 ++ '-' ::
  (byteToHex u.b10 ++ byteToHex u.b11 ++ byteToHex u.b12 ++
   byteToHex u.b13 ++ byteToHex u.b14 ++ byteToHex u.b15))))

/-- `xtob` from `google/uuid`: two hex characters to one byte. -/
def xtob (c1 c2 : Char) : Option Nat :=
  match hexCharVal c1, hexCharVal c2 with
  | some a, some b => some (a * 16 + b)
  | _, _ => none

/-- Consecutive `xtob` parsing of hex-digit pairs. -/
def parsePairs : List Char → Option (List Nat)
  | [] => some []
  | c1 :: c2 :: rest =>
    match xtob c1 c2, parsePairs rest with
    | some b, some bs => some (b :: bs)
    | _, _ => none
  | _ => none

/-- `uuid.Parse` from `google/uuid`, restricted to its 36-character branch
(the only branch reachable from `ExpandUUID`, which always builds a
36-character hyphenated string): require hyphens at indices 8, 13, 18 and 23
and parse the sixteen fixed two-hex-digit groups with `xtob`.  Parsing the
pairs of the hyphen-free residue is equivalent to Go's fixed-offset `xtob`
calls: when the residue has 32 characters the offsets agree exactly, and a
stray hyphen elsewhere makes both fail. -/
def uuidParse (s : List Char) : Option UUIDv :=
  if s.length = 36 ∧ (s.drop 8).head? = some '-' ∧ (s.drop 13).head? = some '-' ∧
      (s.drop 18).head? = some '-' ∧ (s.drop 23).head? = some '-' then
    match parsePairs (s.filter (fun c => ¬ c = '-')) with
    | some [x0, x1, x2, x3, x4, x5, x6, x7, x8, x9, x10, x11, x12, x13, x14, x15] =>
      some ⟨x0, x1, x2, x3, x4, x5, x6, x7, x8, x9, x10, x11, x12, x13, x14, x15⟩
    | _ => none
  else none

/-- Go `ShortenUUID` (hex-integer convention): `u.String()`, guard against an
empty string (dead code: `String()` always yields 36 characters), strip
hyphens with `strings.ReplaceAll(uuidStr, "-", "")`, then `encodeHex`.  The
error branch stores the Go string; its bytes are its ASCII codes. -/
def ShortenUUID (u : UUIDv) : Except EncodeError (List Char) :=
  let uuidStr := uuidString u
  if uuidStr = [] then
    .error ⟨uuidStr.map Char.toNat, "UUID string cannot be empty"⟩
  else
    encodeHex (uuidStr.filter (fun c => ¬ c = '-'))

/-- Go `ExpandUUID` (hex-integer convention): `decodeHex`, length guard,
re-hyphenate `hexStr[0:8]-[8:12]-[12:16]-[16:20]-[20:32]`, `uuid.Parse`. -/
def ExpandUUID (shortID : List Char) : Except DecodeError UUIDv :=
  match decodeHex shortID with
  | .error e => .error e
  | .ok hexStr =>
    if hexStr.length ≠ 32 then
      .error ⟨shortID,
        "decoded to invalid length: expected 32 hex characters, got " ++
          toString hexStr.length⟩
    else
      let uuidStr := hexStr.take 8 ++ '-' ::
        ((hexStr.drop 8).take 4 ++ '-' ::
        ((hexStr.drop 12).take 4 ++ '-' ::
        ((hexStr.drop 16).take 4 ++ '-' :: (hexStr.drop 20).take 12)))
      match uuidParse uuidStr with
      | some u => .ok u
      | none => .error ⟨shortID, "failed to parse UUID: invalid UUID format"⟩

/-- Spec-side rendering of §4.1 `intToShort` for the refinement claim C8:
"repeatedly divide `n` by 62, collecting remainders ... from
least-significant to most-significant". -/
def specCollect (n : Nat) : List Nat :=
  if h : n = 0 then []
  else n % 62 :: specCollect (n / 62)
  termination_by n
  decreasing_by exact Nat.div_lt_self (Nat.pos_of_ne_zero h) (by norm_num)

/-- Fixed-width big-endian hex rendering (proof-side helper): the `w`-digit
hex spelling of `n % 16 ^ w`. -/
def hexDigitsFixed : Nat → Nat → List Char
  | 0, _ => []
  | k + 1, n => hexDigitsFixed k (n / 16) ++ [hexDigit (n % 16)]

/-- Fixed-width big-endian byte decomposition (proof-side helper): the `w`
bytes of `n % 256 ^ w`. -/
def bytesFixed : Nat → Nat → List Nat
  | 0, _ => []
  | k + 1, n => bytesFixed k (n / 256) ++ [n % 256]

/-! ## Conversion-engine lemmas -/

theorem intToBaseLoop_zero (acc : List Char) : intToBaseLoop 0 acc = acc := by
  unfold intToBaseLoop
  simp

theorem intToBaseLoop_pos {n : Nat} (h : n ≠ 0) (acc : List Char) :
    intToBaseLoop n acc =
      intToBaseLoop (n / 62) (defaultBase62.getD (n % 62) '0' :: acc) := by
  conv_lhs => unfold intToBaseLoop
  simp [h]

theorem intToBaseLoop_append (n : Nat) :
    ∀ acc, intToBaseLoop n acc = intToBaseLoop n [] ++ acc := by
  induction n using Nat.strong_induction_on with
  | _ n ih =>
    intro acc
    by_cases h : n = 0
    · subst h
      simp [intToBaseLoop_zero]
    · have hd : n / 62 < n := Nat.div_lt_self (Nat.pos_of_ne_zero h) (by norm_num)
      rw [intToBaseLoop_pos h, intToBaseLoop_pos h,
        ih _ hd (defaultBase62.getD (n % 62) '0' :: acc),
        ih _ hd (defaultBase62.getD (n % 62) '0' :: [])]
      simp

theorem intToBaseLoop_ne_nil {n : Nat} (h : n ≠ 0) : intToBaseLoop n [] ≠ [] := by
  rw [intToBaseLoop_pos h, intToBaseLoop_append]
  simp

theorem baseToIntLoop_append (enc xs ys : List Char) :
    ∀ acc, baseToIntLoop enc (xs ++ ys) acc =
      match baseToIntLoop enc xs acc with
      | .ok a => baseToIntLoop enc ys a
      | .error e => .error e := by
  induction xs with
  | nil =>
    intro acc
    simp [baseToIntLoop]
  | cons c rest ih =>
    intro acc
    simp only [List.cons_append, baseToIntLoop]
    cases halpha : alphaIdx c with
    | none => simp
    | some i => simp [ih]

theorem alphaIdx_getD (d : Fin 62) :
    alphaIdx (defaultBase62.getD d.val '0') = some d.val := by
  revert d
  decide

theorem baseToIntLoop_intToBaseLoop (n : Nat) :
    ∀ (enc : List Char) (a : Nat), ∃ k,
      baseToIntLoop enc (intToBaseLoop n []) a = .ok (a * 62 ^ k + n) := by
  induction n using Nat.strong_induction_on with
  | _ n ih =>
    intro enc a
    by_cases h : n = 0
    · subst h
      exact ⟨0, by simp [intToBaseLoop_zero, baseToIntLoop]⟩
    · have hd : n / 62 < n := Nat.div_lt_self (Nat.pos_of_ne_zero h) (by norm_num)
      rw [intToBaseLoop_pos h, intToBaseLoop_append, baseToIntLoop_append]
      obtain ⟨k, hk⟩ := ih (n / 62) hd enc a
      rw [hk]
      refine ⟨k + 1, ?_⟩
      have hsym := alphaIdx_getD ⟨n % 62, Nat.mod_lt _ (by norm_num)⟩
      simp only [baseToIntLoop, hsym]
      congr 1
      have hmod : n / 62 * 62 + n % 62 = n := by omega
      calc (a * 62 ^ k + n / 62) * 62 + n % 62
          = a * 62 ^ k * 62 + (n / 62 * 62 + n % 62) := by ring
        _ = a * 62 ^ (k + 1) + n := by rw [hmod, pow_succ, Nat.mul_assoc]

theorem baseToInt_intToBase (n : Nat) : baseToInt (intToBase n) = .ok n := by
  by_cases h : n = 0
  · subst h
    rfl
  · rw [intToBase, if_neg h, baseToInt]
    obtain ⟨k, hk⟩ := baseToIntLoop_intToBaseLoop n (intToBaseLoop n []) 0
    rw [hk]
    simp

theorem intToBaseLoop_head (n : Nat) :
    n ≠ 0 → (intToBaseLoop n []).head? ≠ some (defaultBase62.getD 0 '0') := by
  induction n using Nat.strong_induction_on with
  | _ n ih =>
    intro h
    rw [intToBaseLoop_pos h]
    by_cases h62 : n / 62 = 0
    · rw [h62, intToBaseLoop_zero]
      have hn : n % 62 = n := Nat.mod_eq_of_lt (by omega)
      have hlt : n % 62 < 62 := Nat.mod_lt _ (by norm_num)
      have hne : ∀ d : Fin 62, d.val ≠ 0 →
          defaultBase62.getD d.val '0' ≠ defaultBase62.getD 0 '0' := by decide
      have := hne ⟨n % 62, hlt⟩ (by simpa [hn] using h)
      simpa using this
    · have hd : n / 62 < n := Nat.div_lt_self (Nat.pos_of_ne_zero h) (by norm_num)
      rw [intToBaseLoop_append]
      obtain ⟨x, t, hxt⟩ := List.exists_cons_of_ne_nil (intToBaseLoop_ne_nil h62)
      have hh := ih (n / 62) hd h62
      rw [hxt] at hh ⊢
      simpa using hh

theorem specCollect_zero : specCollect 0 = [] := by
  unfold specCollect
  simp

theorem specCollect_pos {n : Nat} (h : n ≠ 0) :
    specCollect n = n % 62 :: specCollect (n / 62) := by
  conv_lhs => unfold specCollect
  simp [h]

theorem intToBaseLoop_eq_specCollect (n : Nat) :
    ∀ acc, intToBaseLoop n acc =
      (specCollect n).reverse.map (fun d => defaultBase62.getD d '0') ++ acc := by
  induction n using Nat.strong_induction_on with
  | _ n ih =>
    intro acc
    by_cases h : n = 0
    · subst h
      simp [intToBaseLoop_zero, specCollect_zero]
    · have hd : n / 62 < n := Nat.div_lt_self (Nat.pos_of_ne_zero h) (by norm_num)
      rw [intToBaseLoop_pos h, ih _ hd, specCollect_pos h]
      simp

theorem alphaIdxGo_eq_none_iff (c : Char) :
    ∀ (l : List Char) (i : Nat), alphaIdxGo c l i = none ↔ c ∉ l := by
  intro l
  induction l with
  | nil => simp [alphaIdxGo]
  | cons a rest ih =>
    intro i
    by_cases h : a = c
    · simp [alphaIdxGo, h]
    · simp only [alphaIdxGo, if_neg h, List.mem_cons, ih]
      constructor
      · rintro hm (rfl | hmem)
        · exact h rfl
        · exact hm hmem
      · intro hm hmem
        exact hm (Or.inr hmem)

theorem alphaIdx_eq_none_iff (c : Char) : alphaIdx c = none ↔ c ∉ defaultBase62 :=
  alphaIdxGo_eq_none_iff c defaultBase62 0

theorem baseToIntLoop_ok_of_valid (enc : List Char) :
    ∀ (xs : List Char) (acc : Nat), (∀ c ∈ xs, c ∈ defaultBase62) →
      baseToIntLoop enc xs acc =
        .ok (xs.foldl (fun a c => a * 62 + (alphaIdx c).getD 0) acc) := by
  intro xs
  induction xs with
  | nil => simp [baseToIntLoop]
  | cons c rest ih =>
    intro acc hv
    have hc : alphaIdx c ≠ none := by
      rw [Ne, alphaIdx_eq_none_iff]
      simpa using hv c (by simp)
    obtain ⟨i, hi⟩ := Option.ne_none_iff_exists'.mp hc
    simp only [baseToIntLoop, hi, List.foldl_cons]
    rw [ih (acc * 62 + i) (fun d hd => hv d (by simp [hd]))]
    simp [hi]

theorem baseToIntLoop_error_of_invalid (enc : List Char) :
    ∀ (xs : List Char) (acc : Nat), (∃ c ∈ xs, c ∉ defaultBase62) →
      ∃ c ∈ xs, c ∉ defaultBase62 ∧
        baseToIntLoop enc xs acc = .error ⟨enc, invalidCharReason c⟩ := by
  intro xs
  induction xs with
  | nil => simp
  | cons d rest ih =>
    intro acc hex
    cases halpha : alphaIdx d with
    | none =>
      refine ⟨d, by simp, ?_, ?_⟩
      · exact (alphaIdx_eq_none_iff d).mp halpha
      · simp [baseToIntLoop, halpha]
    | some i =>
      have hd : d ∈ defaultBase62 := by
        by_contra hmem
        rw [← alphaIdx_eq_none_iff] at hmem
        simp [hmem] at halpha
      obtain ⟨c, hcmem, hcinv⟩ := hex
      rcases List.mem_cons.mp hcmem with rfl | hcrest
      · exact absurd hd hcinv
      · obtain ⟨c', hc'm, hc'inv, hc'eq⟩ := ih (acc * 62 + i) ⟨c, hcrest, hcinv⟩
        exact ⟨c', by simp [hc'm], hc'inv, by simp [baseToIntLoop, halpha, hc'eq]⟩

/-! ## Byte-codec lemmas -/

theorem natToBytesLoop_zero (acc : List Nat) : natToBytesLoop 0 acc = acc := by
  unfold natToBytesLoop
  simp

theorem natToBytesLoop_pos {n : Nat} (h : n ≠ 0) (acc : List Nat) :
    natToBytesLoop n acc = natToBytesLoop (n / 256) (n % 256 :: acc) := by
  conv_lhs => unfold natToBytesLoop
  simp [h]

theorem natToBytesLoop_append (n : Nat) :
    ∀ acc, natToBytesLoop n acc = natToBytesLoop n [] ++ acc := by
  induction n using Nat.strong_induction_on with
  | _ n ih =>
    intro acc
    by_cases h : n = 0
    · subst h
      simp [natToBytesLoop_zero]
    · have hd : n / 256 < n := Nat.div_lt_self (Nat.pos_of_ne_zero h) (by norm_num)
      rw [natToBytesLoop_pos h, natToBytesLoop_pos h,
        ih _ hd (n % 256 :: acc), ih _ hd (n % 256 :: [])]
      simp

theorem bytesToNat_append_singleton (xs : List Nat) (b : Nat) :
    bytesToNat (xs ++ [b]) = bytesToNat xs * 256 + b := by
  simp [bytesToNat, List.foldl_append]

theorem bytesToNat_cons_zero (t : List Nat) : bytesToNat (0 :: t) = bytesToNat t := by
  simp [bytesToNat]

theorem foldl_byte_ge (t : List Nat) :
    ∀ a, a ≤ t.foldl (fun acc b => acc * 256 + b) a := by
  induction t with
  | nil => simp
  | cons b rest ih =>
    intro a
    calc a ≤ a * 256 + b := by omega
      _ ≤ _ := by simpa using ih (a * 256 + b)

theorem bytesToNat_pos {h : Nat} (t : List Nat) (hh : h ≠ 0) :
    0 < bytesToNat (h :: t) := by
  have : bytesToNat (h :: t) = t.foldl (fun acc b => acc * 256 + b) h := by
    simp [bytesToNat]
  rw [this]
  have := foldl_byte_ge t h
  omega

theorem bytesToNat_lt (bs : List Nat) (hv : ∀ b ∈ bs, b < 256) :
    bytesToNat bs < 256 ^ bs.length := by
  induction bs using List.reverseRecOn with
  | nil => simp [bytesToNat]
  | append_singleton xs b ih =>
    have hb : b < 256 := hv b (by simp)
    have hxs : bytesToNat xs < 256 ^ xs.length :=
      ih (fun c hc => hv c (by simp [hc]))
    rw [bytesToNat_append_singleton]
    calc bytesToNat xs * 256 + b < (bytesToNat xs + 1) * 256 := by omega
      _ ≤ 256 ^ xs.length * 256 := Nat.mul_le_mul_right 256 hxs
      _ = 256 ^ (xs ++ [b]).length := by
          simp [pow_succ]

theorem natToBytes_bytesToNat (bs : List Nat) :
    (∀ b ∈ bs, b < 256) → bs.head? ≠ some 0 →
      natToBytes (bytesToNat bs) = bs := by
  induction bs using List.reverseRecOn with
  | nil =>
    intro _ _
    simp [bytesToNat, natToBytes, natToBytesLoop_zero]
  | append_singleton xs b ih =>
    intro hv hh
    have hb : b < 256 := hv b (by simp)
    rw [bytesToNat_append_singleton]
    by_cases hx : xs = []
    · subst hx
      have hb0 : b ≠ 0 := by simpa using hh
      simp only [bytesToNat, List.foldl_nil, Nat.zero_mul, Nat.zero_add]
      rw [natToBytes, natToBytesLoop_pos hb0]
      have h1 : b / 256 = 0 := by omega
      have h2 : b % 256 = b := by omega
      rw [h1, h2, natToBytesLoop_zero]
      simp
    · have hh' : xs.head? ≠ some 0 := by
        rwa [List.head?_append_of_ne_nil xs hx] at hh
      have hvx : ∀ c ∈ xs, c < 256 := fun c hc => hv c (by simp [hc])
      obtain ⟨y, t, rfl⟩ := List.exists_cons_of_ne_nil hx
      have hy : y ≠ 0 := by
        intro hy0
        exact hh' (by simp [hy0])
      have hpos : 0 < bytesToNat (y :: t) := bytesToNat_pos t hy
      have hne : bytesToNat (y :: t) * 256 + b ≠ 0 := by positivity
      rw [natToBytes, natToBytesLoop_pos hne]
      have h1 : (bytesToNat (y :: t) * 256 + b) / 256 = bytesToNat (y :: t) := by omega
      have h2 : (bytesToNat (y :: t) * 256 + b) % 256 = b := by omega
      rw [h1, h2, natToBytesLoop_append, ← natToBytes, ih hvx hh']

theorem dropWhile_zero_val (bs : List Nat) :
    bytesToNat (bs.dropWhile (fun b => b == 0)) = bytesToNat bs := by
  induction bs with
  | nil => rfl
  | cons h t ih =>
    by_cases h0 : h = 0
    · subst h0
      rw [bytesToNat_cons_zero, ← ih]
      simp [List.dropWhile_cons]
    · simp [List.dropWhile_cons, h0]

theorem dropWhile_zero_head (bs : List Nat) :
    (bs.dropWhile (fun b => b == 0)).head? ≠ some 0 := by
  induction bs with
  | nil => simp
  | cons h t ih =>
    by_cases h0 : h = 0
    · subst h0
      simpa [List.dropWhile_cons] using ih
    · simp [List.dropWhile_cons, h0]

theorem dropWhile_zero_mem {bs : List Nat} {b : Nat}
    (hb : b ∈ bs.dropWhile (fun b => b == 0)) : b ∈ bs :=
  (List.dropWhile_sublist _).subset hb

/-! ## Claim theorems for the engine and the string codec -/

/-- C8: for every non-negative big integer `n`, `intToBase n` is the string
obtained by repeatedly dividing `n` by 62, collecting remainders as alphabet
symbols least-significant first, then reversing; it never begins with the
zero symbol unless `n` is exactly zero, in which case it is the single symbol
at alphabet index 0, and it is never the empty string.  The last conjunct
records that the collected digits do spell `n` most-significant first. -/
theorem intToBase_spec (n : Nat) :
    intToBase n = (if n = 0 then [defaultBase62.getD 0 '0']
      else (specCollect n).reverse.map (fun d => defaultBase62.getD d '0')) ∧
    intToBase n ≠ [] ∧
    (n ≠ 0 → (intToBase n).head? ≠ some (defaultBase62.getD 0 '0')) ∧
    baseToInt (intToBase n) = .ok n := by
  refine ⟨?_, ?_, ?_, baseToInt_intToBase n⟩
  · by_cases h : n = 0
    · simp [intToBase, h]
    · rw [intToBase, if_neg h, if_neg h, intToBaseLoop_eq_specCollect]
      simp
  · by_cases h : n = 0
    · simp [intToBase, h]
    · rw [intToBase, if_neg h]
      exact intToBaseLoop_ne_nil h
  · intro h
    rw [intToBase, if_neg h]
    exact intToBaseLoop_head n h

theorem intToBase_spec_witness :
    intToBase 62 ≠ [] ∧ (intToBase 62).head? ≠ some (defaultBase62.getD 0 '0') :=
  ⟨(intToBase_spec 62).2.1, (intToBase_spec 62).2.2.1 (by decide)⟩

/-- C6: `baseToInt` folds `acc * 62 + index` left to right over the symbols,
and it fails — with a `DecodeError` carrying the offending symbol and the
full input — if and only if some symbol is absent from the alphabet. -/
theorem baseToInt_char_spec (s : List Char) :
    ((∀ c ∈ s, c ∈ defaultBase62) →
      baseToInt s = .ok (s.foldl (fun a c => a * 62 + (alphaIdx c).getD 0) 0)) ∧
    ((∃ e, baseToInt s = .error e) ↔ ∃ c ∈ s, c ∉ defaultBase62) ∧
    ((∃ c ∈ s, c ∉ defaultBase62) →
      ∃ c ∈ s, c ∉ defaultBase62 ∧
        baseToInt s = .error ⟨s, invalidCharReason c⟩) := by
  have hok := baseToIntLoop_ok_of_valid s s 0
  have herr := baseToIntLoop_error_of_invalid s s 0
  refine ⟨fun hv => hok hv, ⟨?_, ?_⟩, fun hex => herr hex⟩
  · rintro ⟨e, he⟩
    by_contra hno
    push_neg at hno
    rw [baseToInt, hok hno] at he
    simp at he
  · intro hex
    obtain ⟨c, _, _, herr'⟩ := herr hex
    exact ⟨_, herr'⟩

theorem baseToInt_char_spec_witness :
    ∃ c ∈ (['@'] : List Char), c ∉ defaultBase62 ∧
      baseToInt ['@'] = .error ⟨['@'], invalidCharReason c⟩ :=
  (baseToInt_char_spec ['@']).2.2 ⟨'@', by decide, by decide⟩

/-- C7: `Shorten` fails with an `EncodeError` carrying the original input and
a reason exactly when the input is empty; every non-empty input encodes with
no error. -/
theorem shorten_empty_spec (input : List Nat) :
    (input = [] → Shorten input = .error ⟨input, "input string cannot be empty"⟩) ∧
    (input ≠ [] → Shorten input = .ok (intToBase (bytesToNat input))) := by
  constructor
  · intro h
    subst h
    simp [Shorten, encode]
  · intro h
    simp [Shorten, encode, h]

theorem shorten_empty_spec_witness :
    Shorten [] = .error ⟨[], "input string cannot be empty"⟩ ∧
      Shorten [104] = .ok (intToBase (bytesToNat [104])) :=
  ⟨(shorten_empty_spec []).1 rfl, (shorten_empty_spec [104]).2 (by decide)⟩

/-- C9: `baseToInt` of the empty string yields zero with no error, and
`Expand ""` succeeds with the empty string. -/
theorem expand_empty_spec :
    baseToInt ([] : List Char) = .ok 0 ∧ Expand ([] : List Char) = .ok ([] : List Nat) := by
  constructor
  · rfl
  · show decode [] = .ok []
    unfold decode
    show Except.ok (natToBytes 0) = .ok []
    simp [natToBytes, natToBytesLoop_zero]

/-- C4: for every byte string whose first byte is non-zero,
`Expand (Shorten s)` succeeds and returns exactly `s`. -/
theorem expand_shorten_roundtrip (bs : List Nat) (hne : bs ≠ [])
    (hh : bs.head? ≠ some 0) (hv : ∀ b ∈ bs, b < 256) :
    ∃ s, Shorten bs = .ok s ∧ Expand s = .ok bs := by
  refine ⟨intToBase (bytesToNat bs), by simp [Shorten, encode, hne], ?_⟩
  unfold Expand decode
  rw [baseToInt_intToBase]
  simp [natToBytes_bytesToNat bs hv hh]

theorem expand_shorten_roundtrip_witness :
    ∃ s, Shorten [1, 0] = .ok s ∧ Expand s = .ok [1, 0] :=
  expand_shorten_roundtrip [1, 0] (by decide) (by decide) (by decide)

/-- C10: for every non-empty byte string, `Expand (Shorten s)` succeeds and
equals `s` with all leading zero bytes removed; in particular an all-zero
input decodes to the empty string. -/
theorem roundtrip_strips_leading_zeros (bs : List Nat) (hne : bs ≠ [])
    (hv : ∀ b ∈ bs, b < 256) :
    ∃ s, Shorten bs = .ok s ∧
      Expand s = .ok (bs.dropWhile (fun b => b == 0)) ∧
      ((∀ b ∈ bs, b = 0) → Expand s = .ok []) := by
  have hval : ∀ c ∈ bs.dropWhile (fun b => b == 0), c < 256 :=
    fun c hc => hv c (dropWhile_zero_mem hc)
  have hexp : Expand (intToBase (bytesToNat bs)) =
      .ok (bs.dropWhile (fun b => b == 0)) := by
    unfold Expand decode
    rw [baseToInt_intToBase, ← dropWhile_zero_val]
    simp [natToBytes_bytesToNat _ hval (dropWhile_zero_head bs)]
  refine ⟨intToBase (bytesToNat bs), by simp [Shorten, encode, hne], hexp, ?_⟩
  intro hz
  rw [hexp]
  have : bs.dropWhile (fun b => b == 0) = [] := by
    rw [List.dropWhile_eq_nil_iff]
    intro x hx
    simpa using hz x hx
  rw [this]

theorem roundtrip_strips_leading_zeros_witness :
    ∃ s, Shorten [0, 0, 7] = .ok s ∧
      Expand s = .ok (([0, 0, 7] : List Nat).dropWhile (fun b => b == 0)) ∧
      ((∀ b ∈ ([0, 0, 7] : List Nat), b = 0) → Expand s = .ok []) :=
  roundtrip_strips_leading_zeros [0, 0, 7] (by decide) (by decide)

/-! ## Hex-rendering lemmas -/

theorem natToHexLoop_zero (acc : List Char) : natToHexLoop 0 acc = acc := by
  unfold natToHexLoop
  simp

theorem natToHexLoop_pos {n : Nat} (h : n ≠ 0) (acc : List Char) :
    natToHexLoop n acc = natToHexLoop (n / 16) (hexDigit (n % 16) :: acc) := by
  conv_lhs => unfold natToHexLoop
  simp [h]

theorem natToHexLoop_append (n : Nat) :
    ∀ acc, natToHexLoop n acc = natToHexLoop n [] ++ acc := by
  induction n using Nat.strong_induction_on with
  | _ n ih =>
    intro acc
    by_cases h : n = 0
    · subst h
      simp [natToHexLoop_zero]
    · have hd : n / 16 < n := Nat.div_lt_self (Nat.pos_of_ne_zero h) (by norm_num)
      rw [natToHexLoop_pos h, natToHexLoop_pos h,
        ih _ hd (hexDigit (n % 16) :: acc), ih _ hd (hexDigit (n % 16) :: [])]
      simp

theorem natToHexLoop_lt (n : Nat) : n < 16 ^ (natToHexLoop n []).length := by
  induction n using Nat.strong_induction_on with
  | _ n ih =>
    by_cases h : n = 0
    · subst h
      simp [natToHexLoop_zero]
    · have hd : n / 16 < n := Nat.div_lt_self (Nat.pos_of_ne_zero h) (by norm_num)
      rw [natToHexLoop_pos h, natToHexLoop_append]
      have := ih (n / 16) hd
      set L := (natToHexLoop (n / 16) []).length with hL
      have hlen : (natToHexLoop (n / 16) [] ++ [hexDigit (n % 16)]).length = L + 1 := by
        simp [hL]
      rw [hlen, pow_succ]
      omega

theorem hexDigitsFixed_eq_pad :
    ∀ (k n : Nat), n < 16 ^ k →
      hexDigitsFixed k n =
        List.replicate (k - (natToHexLoop n []).length) '0' ++ natToHexLoop n [] := by
  intro k
  induction k with
  | zero =>
    intro n hn
    have : n = 0 := by simpa using hn
    subst this
    simp [hexDigitsFixed, natToHexLoop_zero]
  | succ k ih =>
    intro n hn
    by_cases h : n = 0
    · subst h
      have h16 : (0 : Nat) < 16 ^ k := by positivity
      have := ih 0 h16
      simp only [natToHexLoop_zero] at this ⊢
      show hexDigitsFixed k 0 ++ [hexDigit 0] = _
      rw [this]
      simp [List.replicate_succ' k '0', hexDigit]
    · have hdiv : n / 16 < 16 ^ k := by
        rw [Nat.div_lt_iff_lt_mul (by norm_num)]
        calc n < 16 ^ (k + 1) := hn
          _ = 16 ^ k * 16 := by rw [pow_succ]
      show hexDigitsFixed k (n / 16) ++ [hexDigit (n % 16)] = _
      rw [natToHexLoop_pos h, natToHexLoop_append (n / 16), ih (n / 16) hdiv]
      have hL : (natToHexLoop (n / 16) [] ++ [hexDigit (n % 16)]).length =
          (natToHexLoop (n / 16) []).length + 1 := by simp
      rw [hL]
      have hk : k + 1 - ((natToHexLoop (n / 16) []).length + 1) =
          k - (natToHexLoop (n / 16) []).length := by omega
      rw [hk, List.append_assoc]

theorem padZero_natToHex {n : Nat} (hn : n < 16 ^ 32) :
    padZero 32 (natToHex n) = hexDigitsFixed 32 n := by
  by_cases h : n = 0
  · subst h
    rfl
  · rw [natToHex, if_neg h, padZero, hexDigitsFixed_eq_pad 32 n hn]

theorem hexDigitsFixed_step (k n : Nat) :
    hexDigitsFixed (k + 2) n = hexDigitsFixed k (n / 256) ++ byteToHex (n % 256) := by
  show hexDigitsFixed (k + 1) (n / 16) ++ [hexDigit (n % 16)] = _
  show (hexDigitsFixed k (n / 16 / 16) ++ [hexDigit (n / 16 % 16)]) ++ [hexDigit (n % 16)] = _
  have h1 : n / 16 / 16 = n / 256 := by omega
  have h2 : n / 16 % 16 = n % 256 / 16 := by omega
  have h3 : n % 16 = n % 256 % 16 := by omega
  rw [h1, h2, h3, byteToHex]
  simp

theorem hexCharVal_hexDigit (d : Fin 16) : hexCharVal (hexDigit d.val) = some d.val := by
  revert d
  decide

theorem xtob_byteToHex (b : Nat) (hb : b < 256) :
    xtob (hexDigit (b / 16)) (hexDigit (b % 16)) = some b := by
  have h1 := hexCharVal_hexDigit ⟨b / 16, by omega⟩
  have h2 := hexCharVal_hexDigit ⟨b % 16, by omega⟩
  simp only [xtob, h1, h2]
  congr 1
  omega

theorem hexDigit_ne_hyphen (d : Nat) : ¬ hexDigit d = '-' := by
  by_cases h : d < 16
  · have hall : ∀ x : Fin 16, ¬ hexDigit x.val = '-' := by decide
    exact hall ⟨d, h⟩
  · have hlen : ("0123456789abcdef".toList).length ≤ d := by
      have : ("0123456789abcdef".toList).length = 16 := by decide
      omega
    rw [hexDigit, List.getD_eq_default ("0123456789abcdef".toList) '0' hlen]
    decide

theorem hexDigitsFixed_join :
    ∀ (bs : List Nat), (∀ b ∈ bs, b < 256) →
      hexDigitsFixed (2 * bs.length) (bytesToNat bs) = (bs.map byteToHex).join := by
  intro bs
  induction bs using List.reverseRecOn with
  | nil =>
    intro _
    rfl
  | append_singleton xs b ih =>
    intro hv
    have hb : b < 256 := hv b (by simp)
    have hxs := ih (fun c hc => hv c (by simp [hc]))
    have hlen : 2 * (xs ++ [b]).length = 2 * xs.length + 2 := by
      simp
      omega
    rw [hlen, bytesToNat_append_singleton, hexDigitsFixed_step]
    have h1 : (bytesToNat xs * 256 + b) / 256 = bytesToNat xs := by omega
    have h2 : (bytesToNat xs * 256 + b) % 256 = b := by omega
    rw [h1, h2, hxs]
    simp

theorem hexToNat_foldl_join :
    ∀ (bs : List Nat) (a : Nat), (∀ b ∈ bs, b < 256) →
      ((bs.map byteToHex).join).foldl (fun acc c => acc * 16 + (hexCharVal c).getD 0) a =
        bs.foldl (fun acc b => acc * 256 + b) a := by
  intro bs
  induction bs with
  | nil =>
    intro a _
    rfl
  | cons b rest ih =>
    intro a hv
    have hb : b < 256 := hv b (by simp)
    have hd1 : hexCharVal (hexDigit (b / 16)) = some (b / 16) :=
      hexCharVal_hexDigit ⟨b / 16, by omega⟩
    have hd2 : hexCharVal (hexDigit (b % 16)) = some (b % 16) :=
      hexCharVal_hexDigit ⟨b % 16, by omega⟩
    simp only [List.map_cons, List.join_cons, byteToHex, List.foldl_append,
      List.foldl_cons, List.foldl_nil, hd1, hd2, Option.getD_some]
    rw [ih ((a * 16 + b / 16) * 16 + b % 16) (fun c hc => hv c (by simp [hc]))]
    have : (a * 16 + b / 16) * 16 + b % 16 = a * 256 + b := by omega
    rw [this]

theorem hexToNat_join (bs : List Nat) (hv : ∀ b ∈ bs, b < 256) :
    hexToNat ((bs.map byteToHex).join) = bytesToNat bs :=
  hexToNat_foldl_join bs 0 hv

/-! ## Fixed-width byte lemmas and the UUID round trip -/

theorem bytesFixed_toNat : ∀ (k n : Nat), n < 256 ^ k → bytesToNat (bytesFixed k n) = n := by
  intro k
  induction k with
  | zero =>
    intro n hn
    have hz : n = 0 := by simpa using hn
    subst hz
    rfl
  | succ k ih =>
    intro n hn
    have hdiv : n / 256 < 256 ^ k := by
      rw [Nat.div_lt_iff_lt_mul (by norm_num)]
      calc n < 256 ^ (k + 1) := hn
        _ = 256 ^ k * 256 := by rw [pow_succ]
    show bytesToNat (bytesFixed k (n / 256) ++ [n % 256]) = n
    rw [bytesToNat_append_singleton, ih (n / 256) hdiv]
    omega

theorem bytesFixed_valid : ∀ (k n : Nat), ∀ b ∈ bytesFixed k n, b < 256 := by
  intro k
  induction k with
  | zero =>
    intro n b hb
    simp [bytesFixed] at hb
  | succ k ih =>
    intro n b hb
    simp only [bytesFixed, List.mem_append, List.mem_singleton] at hb
    rcases hb with hb | hb
    · exact ih (n / 256) b hb
    · subst hb
      omega

theorem hexDigitsFixed_bytesFixed : ∀ (k n : Nat),
    hexDigitsFixed (2 * k) n = ((bytesFixed k n).map byteToHex).join := by
  intro k
  induction k with
  | zero =>
    intro n
    rfl
  | succ k ih =>
    intro n
    have h2 : 2 * (k + 1) = 2 * k + 2 := by omega
    rw [h2, hexDigitsFixed_step, ih (n / 256)]
    show _ = ((bytesFixed k (n / 256) ++ [n % 256]).map byteToHex).join
    simp

theorem filter_hyphen_hexDigit (x : Nat) (l : List Char) :
    (hexDigit x :: l).filter (fun c => ¬ c = '-') =
      hexDigit x :: l.filter (fun c => ¬ c = '-') := by
  simp [List.filter_cons, hexDigit_ne_hyphen x]

theorem filter_hyphen_hyphen (l : List Char) :
    ('-' :: l).filter (fun c => ¬ c = '-') = l.filter (fun c => ¬ c = '-') := by
  simp [List.filter_cons]

theorem expandUUID_ok_16 (s : List Char) (a0 a1 a2 a3 a4 a5 a6 a7 a8 a9 a10 a11 a12 a13 a14 a15 : Nat)
    (h0 : a0 < 256)
    (h1 : a1 < 256)
    (h2 : a2 < 256)
    (h3 : a3 < 256)
    (h4 : a4 < 256)
    (h5 : a5 < 256)
    (h6 : a6 < 256)
    (h7 : a7 < 256)
    (h8 : a8 < 256)
    (h9 : a9 < 256)
    (h10 : a10 < 256)
    (h11 : a11 < 256)
    (h12 : a12 < 256)
    (h13 : a13 < 256)
    (h14 : a14 < 256)
    (h15 : a15 < 256)
    (hs : baseToInt s = .ok (bytesToNat [a0, a1, a2, a3, a4, a5, a6, a7, a8, a9, a10, a11, a12, a13, a14, a15])) :
    ExpandUUID s = .ok ⟨a0, a1, a2, a3, a4, a5, a6, a7, a8, a9, a10, a11, a12, a13, a14, a15⟩ := by
  have hv : ∀ b ∈ ([a0, a1, a2, a3, a4, a5, a6, a7, a8, a9, a10, a11, a12, a13, a14, a15] : List Nat), b < 256 := by
    intro b hb
    simp only [List.mem_cons, List.not_mem_nil, or_false] at hb
    rcases hb with rfl|rfl|rfl|rfl|rfl|rfl|rfl|rfl|rfl|rfl|rfl|rfl|rfl|rfl|rfl|rfl <;> assumption
  have hbound : bytesToNat [a0, a1, a2, a3, a4, a5, a6, a7, a8, a9, a10, a11, a12, a13, a14, a15] < 256 ^ 16 := by
    have h := bytesToNat_lt [a0, a1, a2, a3, a4, a5, a6, a7, a8, a9, a10, a11, a12, a13, a14, a15] hv
    have hlen : ([a0, a1, a2, a3, a4, a5, a6, a7, a8, a9, a10, a11, a12, a13, a14, a15] : List Nat).length = 16 := rfl
    rw [hlen] at h
    exact h
  have hbound' : bytesToNat [a0, a1, a2, a3, a4, a5, a6, a7, a8, a9, a10, a11, a12, a13, a14, a15] < 16 ^ 32 := by
    have h1632 : (256 : Nat) ^ 16 = 16 ^ 32 := by norm_num
    omega
  have hpad : padZero 32 (natToHex (bytesToNat [a0, a1, a2, a3, a4, a5, a6, a7, a8, a9, a10, a11, a12, a13, a14, a15])) =
      (([a0, a1, a2, a3, a4, a5, a6, a7, a8, a9, a10, a11, a12, a13, a14, a15] : List Nat).map byteToHex).join := by
    rw [padZero_natToHex hbound']
    have h32 : hexDigitsFixed 32 (bytesToNat [a0, a1, a2, a3, a4, a5, a6, a7, a8, a9, a10, a11, a12, a13, a14, a15]) =
        hexDigitsFixed (2 * ([a0, a1, a2, a3, a4, a5, a6, a7, a8, a9, a10, a11, a12, a13, a14, a15] : List Nat).length) (bytesToNat [a0, a1, a2, a3, a4, a5, a6, a7, a8, a9, a10, a11, a12, a13, a14, a15]) := by
      norm_num
    rw [h32, hexDigitsFixed_join [a0, a1, a2, a3, a4, a5, a6, a7, a8, a9, a10, a11, a12, a13, a14, a15] hv]
  have hdec : decodeHex s = .ok ((([a0, a1, a2, a3, a4, a5, a6, a7, a8, a9, a10, a11, a12, a13, a14, a15] : List Nat).map byteToHex).join) := by
    unfold decodeHex
    rw [hs]
    show Except.ok (padZero 32 (natToHex (bytesToNat [a0, a1, a2, a3, a4, a5, a6, a7, a8, a9, a10, a11, a12, a13, a14, a15]))) = _
    rw [hpad]
  have hx0 : xtob (hexDigit (a0 / 16)) (hexDigit (a0 % 16)) = some a0 := xtob_byteToHex a0 h0
  have hx1 : xtob (hexDigit (a1 / 16)) (hexDigit (a1 % 16)) = some a1 := xtob_byteToHex a1 h1
  have hx2 : xtob (hexDigit (a2 / 16)) (hexDigit (a2 % 16)) = some a2 := xtob_byteToHex a2 h2
  have hx3 : xtob (hexDigit (a3 / 16)) (hexDigit (a3 % 16)) = some a3 := xtob_byteToHex a3 h3
  have hx4 : xtob (hexDigit (a4 / 16)) (hexDigit (a4 % 16)) = some a4 := xtob_byteToHex a4 h4
  have hx5 : xtob (hexDigit (a5 / 16)) (hexDigit (a5 % 16)) = some a5 := xtob_byteToHex a5 h5
  have hx6 : xtob (hexDigit (a6 / 16)) (hexDigit (a6 % 16)) = some a6 := xtob_byteToHex a6 h6
  have hx7 : xtob (hexDigit (a7 / 16)) (hexDigit (a7 % 16)) = some a7 := xtob_byteToHex a7 h7
  have hx8 : xtob (hexDigit (a8 / 16)) (hexDigit (a8 % 16)) = some a8 := xtob_byteToHex a8 h8
  have hx9 : xtob (hexDigit (a9 / 16)) (hexDigit (a9 % 16)) = some a9 := xtob_byteToHex a9 h9
  have hx10 : xtob (hexDigit (a10 / 16)) (hexDigit (a10 % 16)) = some a10 := xtob_byteToHex a10 h10
  have hx11 : xtob (hexDigit (a11 / 16)) (hexDigit (a11 % 16)) = some a11 := xtob_byteToHex a11 h11
  have hx12 : xtob (hexDigit (a12 / 16)) (hexDigit (a12 % 16)) = some a12 := xtob_byteToHex a12 h12
  have hx13 : xtob (hexDigit (a13 / 16)) (hexDigit (a13 % 16)) = some a13 := xtob_byteToHex a13 h13
  have hx14 : xtob (hexDigit (a14 / 16)) (hexDigit (a14 % 16)) = some a14 := xtob_byteToHex a14 h14
  have hx15 : xtob (hexDigit (a15 / 16)) (hexDigit (a15 % 16)) = some a15 := xtob_byteToHex a15 h15
  have hparse : uuidParse [hexDigit (a0 / 16),
      hexDigit (a0 % 16),
      hexDigit (a1 / 16),
      hexDigit (a1 % 16),
      hexDigit (a2 / 16),
      hexDigit (a2 % 16),
      hexDigit (a3 / 16),
      hexDigit (a3 % 16),
      '-',
      hexDigit (a4 / 16),
      hexDigit (a4 % 16),
      hexDigit (a5 / 16),
      hexDigit (a5 % 16),
      '-',
      hexDigit (a6 / 16),
      hexDigit (a6 % 16),
      hexDigit (a7 / 16),
      hexDigit (a7 % 16),
      '-',
      hexDigit (a8 / 16),
      hexDigit (a8 % 16),
      hexDigit (a9 / 16),
      hexDigit (a9 % 16),
      '-',
      hexDigit (a10 / 16),
      hexDigit (a10 % 16),
      hexDigit (a11 / 16),
      hexDigit (a11 % 16),
      hexDigit (a12 / 16),
      hexDigit (a12 % 16),
      hexDigit (a13 / 16),
      hexDigit (a13 % 16),
      hexDigit (a14 / 16),
      hexDigit (a14 % 16),
      hexDigit (a15 / 16),
      hexDigit (a15 % 16)] = some ⟨a0, a1, a2, a3, a4, a5, a6, a7, a8, a9, a10, a11, a12, a13, a14, a15⟩ := by
    unfold uuidParse
    rw [if_pos ⟨rfl, rfl, rfl, rfl, rfl⟩]
    simp only [filter_hyphen_hexDigit, filter_hyphen_hyphen, List.filter_nil]
    simp only [parsePairs, hx0, hx1, hx2, hx3, hx4, hx5, hx6, hx7, hx8, hx9, hx10, hx11, hx12, hx13, hx14, hx15]
  unfold ExpandUUID
  rw [hdec]
  simp only [List.map_cons, List.map_nil, byteToHex, List.join_cons, List.join_nil,
    List.cons_append, List.nil_append, List.append_nil]
  simp only [List.length_cons, List.length_nil]
  norm_num
  rw [hparse]

theorem bytesFixed_length : ∀ (k n : Nat), (bytesFixed k n).length = k := by
  intro k
  induction k with
  | zero =>
    intro n
    rfl
  | succ k ih =>
    intro n
    show (bytesFixed k (n / 256) ++ [n % 256]).length = k + 1
    simp [ih (n / 256)]

theorem exists_sixteen (l : List Nat) (h : l.length = 16) :
    ∃ x0 x1 x2 x3 x4 x5 x6 x7 x8 x9 x10 x11 x12 x13 x14 x15 : Nat,
      l = [x0, x1, x2, x3, x4, x5, x6, x7, x8, x9, x10, x11, x12, x13, x14, x15] := by
  obtain ⟨x0, l0, rfl⟩ := List.exists_of_length_succ l h
  have h0 : l0.length = 15 := by simpa using h
  obtain ⟨x1, l1, rfl⟩ := List.exists_of_length_succ l0 h0
  have h1 : l1.length = 14 := by simpa using h0
  obtain ⟨x2, l2, rfl⟩ := List.exists_of_length_succ l1 h1
  have h2 : l2.length = 13 := by simpa using h1
  obtain ⟨x3, l3, rfl⟩ := List.exists_of_length_succ l2 h2
  have h3 : l3.length = 12 := by simpa using h2
  obtain ⟨x4, l4, rfl⟩ := List.exists_of_length_succ l3 h3
  have h4 : l4.length = 11 := by simpa using h3
  obtain ⟨x5, l5, rfl⟩ := List.exists_of_length_succ l4 h4
  have h5 : l5.length = 10 := by simpa using h4
  obtain ⟨x6, l6, rfl⟩ := List.exists_of_length_succ l5 h5
  have h6 : l6.length = 9 := by simpa using h5
  obtain ⟨x7, l7, rfl⟩ := List.exists_of_length_succ l6 h6
  have h7 : l7.length = 8 := by simpa using h6
  obtain ⟨x8, l8, rfl⟩ := List.exists_of_length_succ l7 h7
  have h8 : l8.length = 7 := by simpa using h7
  obtain ⟨x9, l9, rfl⟩ := List.exists_of_length_succ l8 h8
  have h9 : l9.length = 6 := by simpa using h8
  obtain ⟨x10, l10, rfl⟩ := List.exists_of_length_succ l9 h9
  have h10 : l10.length = 5 := by simpa using h9
  obtain ⟨x11, l11, rfl⟩ := List.exists_of_length_succ l10 h10
  have h11 : l11.length = 4 := by simpa using h10
  obtain ⟨x12, l12, rfl⟩ := List.exists_of_length_succ l11 h11
  have h12 : l12.length = 3 := by simpa using h11
  obtain ⟨x13, l13, rfl⟩ := List.exists_of_length_succ l12 h12
  have h13 : l13.length = 2 := by simpa using h12
  obtain ⟨x14, l14, rfl⟩ := List.exists_of_length_succ l13 h13
  have h14 : l14.length = 1 := by simpa using h13
  obtain ⟨x15, l15, rfl⟩ := List.exists_of_length_succ l14 h14
  have h15 : l15.length = 0 := by simpa using h14
  have hnil : l15 = [] := List.length_eq_zero.mp h15
  subst hnil
  exact ⟨x0, x1, x2, x3, x4, x5, x6, x7, x8, x9, x10, x11, x12, x13, x14, x15, rfl⟩

theorem uuidString_ne_nil (u : UUIDv) : uuidString u ≠ [] := by
  simp [uuidString, byteToHex]

theorem uuidString_filter (u : UUIDv) :
    (uuidString u).filter (fun c => ¬ c = '-') = ((uuidBytes u).map byteToHex).join := by
  simp only [uuidString, uuidBytes, List.map_cons, List.map_nil, List.join_cons,
    List.join_nil, List.append_nil]
  simp only [byteToHex, List.cons_append, List.nil_append]
  simp only [filter_hyphen_hexDigit, filter_hyphen_hyphen, List.filter_nil]

theorem uuidString_length (u : UUIDv) : (uuidString u).length = 36 := by
  simp [uuidString, byteToHex]

theorem shortenUUID_eq (u : UUIDv) (hv : uuidValid u) :
    ShortenUUID u = .ok (intToBase (uuidNat u)) := by
  unfold ShortenUUID
  show (if uuidString u = [] then _ else
    encodeHex ((uuidString u).filter (fun c => ¬ c = '-'))) = _
  rw [if_neg (uuidString_ne_nil u), uuidString_filter u]
  unfold encodeHex
  rw [hexToNat_join (uuidBytes u) hv]
  rfl

/-! ## Claim theorems for the UUID codec -/

/-- C2: `ShortenUUID u` formats `u` as the canonical 36-character hyphenated
hex string, strips the four hyphens to obtain exactly 32 hex characters,
parses those as a base-16 integer (the 128-bit value of `u`), and delegates
to the base-62 encoder: the result is the base-62 encoding of that value. -/
theorem shortenUUID_hex_path (u : UUIDv) (hv : uuidValid u) :
    (uuidString u).length = 36 ∧
    ((uuidString u).filter (fun c => ¬ c = '-')).length = 32 ∧
    hexToNat ((uuidString u).filter (fun c => ¬ c = '-')) = uuidNat u ∧
    ShortenUUID u = .ok (intToBase (uuidNat u)) := by
  refine ⟨uuidString_length u, ?_, ?_, shortenUUID_eq u hv⟩
  · rw [uuidString_filter]
    simp [uuidBytes, byteToHex]
  · rw [uuidString_filter]
    exact hexToNat_join (uuidBytes u) hv

/-- Sample UUID for the witnesses: `4890586e-32a5-4f9c-a000-2a2bb68eb1ce`,
the fixed compatibility vector of the repository. -/
def sampleUUID : UUIDv :=
  ⟨0x48, 0x90, 0x58, 0x6e, 0x32, 0xa5, 0x4f, 0x9c,
   0xa0, 0x00, 0x2a, 0x2b, 0xb6, 0x8e, 0xb1, 0xce⟩

theorem shortenUUID_hex_path_witness :
    uuidValid sampleUUID ∧
      ((uuidString sampleUUID).length = 36 ∧
      ((uuidString sampleUUID).filter (fun c => ¬ c = '-')).length = 32 ∧
      hexToNat ((uuidString sampleUUID).filter (fun c => ¬ c = '-')) = uuidNat sampleUUID ∧
      ShortenUUID sampleUUID = .ok (intToBase (uuidNat sampleUUID))) :=
  ⟨by decide, shortenUUID_hex_path sampleUUID (by decide)⟩

/-- C1: for every 128-bit UUID value `u`, `ExpandUUID (ShortenUUID u)`
succeeds and returns a UUID equal to `u` — all 128 bits, hence also the
version and variant bits, are preserved. -/
theorem expandUUID_shortenUUID_roundtrip (u : UUIDv) (hv : uuidValid u) :
    ∃ s, ShortenUUID u = .ok s ∧ ExpandUUID s = .ok u := by
  refine ⟨intToBase (uuidNat u), shortenUUID_eq u hv, ?_⟩
  exact expandUUID_ok_16 (intToBase (uuidNat u)) u.b0 u.b1 u.b2 u.b3 u.b4 u.b5 u.b6 u.b7 u.b8 u.b9 u.b10 u.b11 u.b12 u.b13 u.b14 u.b15
    (hv u.b0 (by simp [uuidBytes]))
    (hv u.b1 (by simp [uuidBytes]))
    (hv u.b2 (by simp [uuidBytes]))
    (hv u.b3 (by simp [uuidBytes]))
    (hv u.b4 (by simp [uuidBytes]))
    (hv u.b5 (by simp [uuidBytes]))
    (hv u.b6 (by simp [uuidBytes]))
    (hv u.b7 (by simp [uuidBytes]))
    (hv u.b8 (by simp [uuidBytes]))
    (hv u.b9 (by simp [uuidBytes]))
    (hv u.b10 (by simp [uuidBytes]))
    (hv u.b11 (by simp [uuidBytes]))
    (hv u.b12 (by simp [uuidBytes]))
    (hv u.b13 (by simp [uuidBytes]))
    (hv u.b14 (by simp [uuidBytes]))
    (hv u.b15 (by simp [uuidBytes]))
    (baseToInt_intToBase (uuidNat u))

theorem expandUUID_shortenUUID_roundtrip_witness :
    ∃ s, ShortenUUID sampleUUID = .ok s ∧ ExpandUUID s = .ok sampleUUID :=
  expandUUID_shortenUUID_roundtrip sampleUUID (by decide)

/-- C3: `ExpandUUID` applied to the single zero-symbol string `"0"` succeeds
and yields the all-zero UUID, whose canonical string is
`00000000-0000-0000-0000-000000000000`. -/
theorem expandUUID_zero_symbol :
    ExpandUUID ['0'] = .ok ⟨0, 0, 0, 0, 0, 0, 0, 0, 0, 0, 0, 0, 0, 0, 0, 0⟩ ∧
    uuidString ⟨0, 0, 0, 0, 0, 0, 0, 0, 0, 0, 0, 0, 0, 0, 0, 0⟩ = "00000000-0000-0000-0000-000000000000".toList := by
  constructor
  · exact expandUUID_ok_16 ['0'] 0 0 0 0 0 0 0 0 0 0 0 0 0 0 0 0
      (by norm_num) (by norm_num) (by norm_num) (by norm_num)
      (by norm_num) (by norm_num) (by norm_num) (by norm_num)
      (by norm_num) (by norm_num) (by norm_num) (by norm_num)
      (by norm_num) (by norm_num) (by norm_num) (by norm_num)
      rfl
  · decide

/-- C5: `ExpandUUID` delegates to `baseToInt` and propagates its error;
on success with value `n` it renders `n` as 32 zero-padded hex characters and
succeeds with the UUID of value `n` exactly when `n` fits in 128 bits, while
any `n ≥ 2^128` makes the length guard fail with a `DecodeError` on the
input short ID. -/
theorem expandUUID_guards (s : List Char) :
    (∀ e, baseToInt s = .error e → ExpandUUID s = .error e) ∧
    (∀ n, baseToInt s = .ok n →
      (n < 2 ^ 128 → ∃ u, ExpandUUID s = .ok u ∧ uuidValid u ∧ uuidNat u = n) ∧
      (2 ^ 128 ≤ n → ExpandUUID s = .error ⟨s,
        "decoded to invalid length: expected 32 hex characters, got " ++
          toString (natToHex n).length⟩)) := by
  constructor
  · intro e he
    unfold ExpandUUID decodeHex
    rw [he]
  · intro n hn
    constructor
    · intro hlt
      obtain ⟨x0, x1, x2, x3, x4, x5, x6, x7, x8, x9, x10, x11, x12, x13, x14, x15, hbf⟩ :=
        exists_sixteen (bytesFixed 16 n) (bytesFixed_length 16 n)
      have hvld := bytesFixed_valid 16 n
      have hx0 : x0 < 256 := hvld x0 (by rw [hbf]; simp)
      have hx1 : x1 < 256 := hvld x1 (by rw [hbf]; simp)
      have hx2 : x2 < 256 := hvld x2 (by rw [hbf]; simp)
      have hx3 : x3 < 256 := hvld x3 (by rw [hbf]; simp)
      have hx4 : x4 < 256 := hvld x4 (by rw [hbf]; simp)
      have hx5 : x5 < 256 := hvld x5 (by rw [hbf]; simp)
      have hx6 : x6 < 256 := hvld x6 (by rw [hbf]; simp)
      have hx7 : x7 < 256 := hvld x7 (by rw [hbf]; simp)
      have hx8 : x8 < 256 := hvld x8 (by rw [hbf]; simp)
      have hx9 : x9 < 256 := hvld x9 (by rw [hbf]; simp)
      have hx10 : x10 < 256 := hvld x10 (by rw [hbf]; simp)
      have hx11 : x11 < 256 := hvld x11 (by rw [hbf]; simp)
      have hx12 : x12 < 256 := hvld x12 (by rw [hbf]; simp)
      have hx13 : x13 < 256 := hvld x13 (by rw [hbf]; simp)
      have hx14 : x14 < 256 := hvld x14 (by rw [hbf]; simp)
      have hx15 : x15 < 256 := hvld x15 (by rw [hbf]; simp)
      have hn256 : n < 256 ^ 16 := by
        have h216 : (256 : Nat) ^ 16 = 2 ^ 128 := by norm_num
        omega
      have hval : bytesToNat [x0, x1, x2, x3, x4, x5, x6, x7, x8, x9, x10, x11, x12, x13, x14, x15] = n := by
        rw [← hbf]
        exact bytesFixed_toNat 16 n hn256
      refine ⟨⟨x0, x1, x2, x3, x4, x5, x6, x7, x8, x9, x10, x11, x12, x13, x14, x15⟩, ?_, ?_, ?_⟩
      · exact expandUUID_ok_16 s x0 x1 x2 x3 x4 x5 x6 x7 x8 x9 x10 x11 x12 x13 x14 x15 hx0 hx1 hx2 hx3 hx4 hx5 hx6 hx7 hx8 hx9 hx10 hx11 hx12 hx13 hx14 hx15 (by rw [hval]; exact hn)
      · intro b hb
        simp only [uuidBytes, List.mem_cons, List.not_mem_nil, or_false] at hb
        rcases hb with rfl|rfl|rfl|rfl|rfl|rfl|rfl|rfl|rfl|rfl|rfl|rfl|rfl|rfl|rfl|rfl <;> assumption
      · exact hval
    · intro hge
      have hnz : n ≠ 0 := by
        have : (0 : Nat) < 2 ^ 128 := by positivity
        omega
      have hlow := natToHexLoop_lt n
      have hlen : 32 < (natToHexLoop n []).length := by
        by_contra hle
        push_neg at hle
        have hpow : (16 : Nat) ^ (natToHexLoop n []).length ≤ 16 ^ 32 :=
          Nat.pow_le_pow_right (by norm_num) hle
        have h1632 : (16 : Nat) ^ 32 = 2 ^ 128 := by norm_num
        omega
      have hhex : natToHex n = natToHexLoop n [] := by
        rw [natToHex, if_neg hnz]
      have hpadid : padZero 32 (natToHex n) = natToHex n := by
        rw [padZero, hhex]
        have hz : 32 - (natToHexLoop n []).length = 0 := by omega
        rw [hz]
        simp
      unfold ExpandUUID decodeHex
      rw [hn]
      show (if (padZero 32 (natToHex n)).length ≠ 32 then _ else _) = _
      rw [if_pos (by rw [hpadid, hhex]; omega)]
      rw [hpadid]

theorem expandUUID_guards_witness :
    ∃ u, ExpandUUID (['1', '0'] : List Char) = .ok u ∧ uuidValid u ∧ uuidNat u = 62 :=
  ((expandUUID_guards ['1', '0']).2 62 rfl).1 (by norm_num)

end ShortUUID
